import Mathlib

/-!
Shallow embedding of the NETCONF operations layer (`src/ops.go`) together
with theorems about its encoding and validation behaviour.

Modelling conventions: Go strings and byte slices become `String`, Go
booleans become `Bool`, a Go function that can return an error becomes a
function into `Except String α` (`.error` is the Go error path, `.ok` the
success path), and the output of the `encoding/xml` encoder is modelled as
the concrete string of XML text it would produce.  The network side
(`Session.Call`) is out of scope: an operation is modelled by the request
value it hands to `Session.Call`, and an operation that validates locally
before calling is modelled as an `Except` whose `.error` branch is the
local validation failure returned before any call.
-/

namespace Netconf

/-- XmlElem models a decoded XML element as seen by an `UnmarshalXML`
method: its tag name together with its (possibly empty) textual content. -/
structure XmlElem where
  name : String
  content : String
deriving DecidableEq

/-- marshalExtantBool models `ExtantBool.MarshalXML` (src/ops.go:17): a true
value encodes the start element (`e.EncodeElement(struct{}{}, start)` emits
the element with empty content), a false value encodes nothing at all (the
method returns before writing anything). -/
def marshalExtantBool (b : Bool) (start : String) : Option XmlElem :=
  if b then some ⟨start, ""⟩ else none

/-- unmarshalExtantBool models decoding of an `ExtantBool` field
(src/ops.go:31): when the element is present, `ExtantBool.UnmarshalXML`
runs and stores `v != nil`, which is always true whatever the element
content is; when the element is absent, the field keeps its Go zero value
`false`. -/
def unmarshalExtantBool (e : Option XmlElem) : Bool :=
  e.isSome

/-- isInCharacterRange models `isInCharacterRange` of Go's `encoding/xml`:
membership of a rune in the XML 1.0 character range. -/
def isInCharacterRange (c : Char) : Bool :=
  let r := c.toNat
  r = 0x09 || r = 0x0A || r = 0x0D ||
    (0x20 ≤ r && r ≤ 0xD7FF) || (0xE000 ≤ r && r ≤ 0xFFFD) ||
    (0x10000 ≤ r && r ≤ 0x10FFFF)

/-- xmlEscapeChar models the per-rune behaviour of `xml.EscapeText` from
Go's `encoding/xml`: the eight special runes are replaced by their escape
sequences, runes outside the XML character range are replaced by U+FFFD,
anything else is copied through. -/
def xmlEscapeChar (c : Char) : String :=
  if c = '"' then "&#34;"
  else if c = '\'' then "&#39;"
  else if c = '&' then "&amp;"
  else if c = '<' then "&lt;"
  else if c = '>' then "&gt;"
  else if c = '\t' then "&#x9;"
  else if c = '\n' then "&#xA;"
  else if c = '\r' then "&#xD;"
  else if isInCharacterRange c then String.singleton c
  else "�"

/-- escapeXML models `escapeXML` (src/ops.go:65).  In Go it runs
`xml.EscapeText` into a `strings.Builder`; the builder's writes never fail,
and `xml.EscapeText` only returns errors of the underlying writer, so the
Go error return is dead code and the model is total. -/
def escapeXML (input : String) : String :=
  String.join (input.data.map xmlEscapeChar)

/-- datastoreMarshalXML models `Datastore.MarshalXML` (src/ops.go:46).
`start` is the tag name of the enclosing start element chosen by the
caller's struct field (for example `source` or `target`); the method
rejects the empty datastore name, otherwise it emits, inside the start
element, an empty element whose tag name is the escaped datastore name
(via the `,innerxml` field `"<" + escaped + "/>"`). -/
def datastoreMarshalXML (s : String) (start : String) : Except String String :=
  if s = "" then .error "datastores cannot be empty"
  else .ok ("<" ++ start ++ ">" ++ "<" ++ escapeXML s ++ "/>" ++ "</" ++ start ++ ">")

/-- htmlEscapeChar models the per-character behaviour of Go's
`html.EscapeString`, which replaces exactly the five characters
`&`, `'`, `<`, `>`, `"` by entities. -/
def htmlEscapeChar (c : Char) : String :=
  if c = '&' then "&amp;"
  else if c = '\'' then "&#39;"
  else if c = '<' then "&lt;"
  else if c = '>' then "&gt;"
  else if c = '"' then "&#34;"
  else String.singleton c

/-- htmlEscapeString models Go's `html.EscapeString`. -/
def htmlEscapeString (s : String) : String :=
  String.join (s.data.map htmlEscapeChar)

/-- isWordDash is the character class `[\w-]` of the Go regular expression
in `parseXPathToXML` (src/ops.go:113): ASCII letters, ASCII digits,
underscore, and the dash. -/
def isWordDash (c : Char) : Bool :=
  c.isAlphanum || c = '_' || c = '-'

/-- isQuoteChar is the character class `['"]` of the same regular
expression. -/
def isQuoteChar (c : Char) : Bool :=
  c = '\'' || c = '"'

/-- takeWord splits a character list into its maximal prefix of `[\w-]`
characters and the remainder, implementing the greedy `[\w-]+` part of the
regular expression. -/
def takeWord : List Char → List Char × List Char
  | [] => ([], [])
  | c :: rest =>
    if isWordDash c then
      let (w, r) := takeWord rest
      (c :: w, r)
    else ([], c :: rest)

/-- scanG3 implements the tail `(.+?)['"]\]` of the predicate part of the
regular expression with Go's leftmost-first semantics: it finds the
shortest non-empty newline-free prefix that is immediately followed by a
quote character and a closing bracket, returning that prefix (capture
group 3) and the remainder after the bracket. -/
def scanG3 (acc : List Char) : List Char → Option (List Char × List Char)
  | [] => none
  | c :: rest =>
    if c = '\n' then none
    else
      match rest with
      | q :: rb :: rest2 =>
        if isQuoteChar q ∧ rb = ']' then some (acc ++ [c], rest2)
        else scanG3 (acc ++ [c]) rest
      | _ => scanG3 (acc ++ [c]) rest

/-- scanG2 implements `(.+?)=['"]` followed by the group-3 scan, with the
backtracking order of Go's leftmost-first matching: candidate prefixes for
capture group 2 are tried shortest first, each must be newline-free and be
followed by `=` and a quote character, and the rest of the bracket body
must then be accepted by `scanG3`; on inner failure the group-2 candidate
is extended. -/
def scanG2 (acc : List Char) : List Char → Option (List Char × List Char × List Char)
  | [] => none
  | c :: rest =>
    if c = '\n' then none
    else
      match rest with
      | '=' :: q :: rest2 =>
        if isQuoteChar q then
          match scanG3 [] rest2 with
          | some (g3, rest3) => some (acc ++ [c], g3, rest3)
          | none => scanG2 (acc ++ [c]) rest
        else scanG2 (acc ++ [c]) rest
      | _ => scanG2 (acc ++ [c]) rest

/-- scanPredicate implements the optional group `\[(.+?)=['"](.+?)['"]\]`:
it succeeds only when the remainder starts with `[` and the bracket body
parses, returning the two capture groups and the text after `]`. -/
def scanPredicate : List Char → Option (String × String × List Char)
  | '[' :: rest =>
    match scanG2 [] rest with
    | some (g2, g3, rest3) => some (⟨g2⟩, ⟨g3⟩, rest3)
    | none => none
  | _ => none

/-- XPathMatch is one entry of the `FindAllStringSubmatch` result used in
`parseXPathToXML`: the element name captured by `([\w-]+)` and, when the
optional predicate group participated, its two captures. -/
structure XPathMatch where
  element : String
  cond : Option (String × String)
deriving DecidableEq

/-- findAllAux scans the input for successive non-overlapping matches of
the regular expression `/([\w-]+)(?:\[(.+?)=['"](.+?)['"]\])?`, exactly as
`regexp.FindAllStringSubmatch` does: a match starts at each `/` that is
immediately followed by a `[\w-]` character; the element name is the
maximal word run; the predicate is taken when, at the end of the word run,
the optional bracket group matches; scanning resumes after the match.  The
fuel argument only bounds recursion and is always called with at least the
length of the list, which each step strictly decreases. -/
def findAllAux : Nat → List Char → List XPathMatch
  | 0, _ => []
  | fuel + 1, c :: c2 :: rest =>
    if c = '/' && isWordDash c2 then
      match scanPredicate (takeWord (c2 :: rest)).2 with
      | some (t, v, rest2) =>
        ⟨⟨(takeWord (c2 :: rest)).1⟩, some (t, v)⟩ :: findAllAux fuel rest2
      | none =>
        ⟨⟨(takeWord (c2 :: rest)).1⟩, none⟩ :: findAllAux fuel (takeWord (c2 :: rest)).2
    else findAllAux fuel (c2 :: rest)
  | _ + 1, _ => []

/-- findAllMatches runs `findAllAux` with enough fuel for the whole
input. -/
def findAllMatches (cs : List Char) : List XPathMatch :=
  findAllAux cs.length cs

/-- condXML renders the child element a predicate contributes
(src/ops.go:139): an element named after the predicate's left-hand side
whose text is the `html.EscapeString`-escaped right-hand literal.  Both
captures come from `.+?` so they are non-empty whenever present, hence the
Go guard `match[2] != "" && match[3] != ""` is equivalent to the predicate
group having matched. -/
def condXML : Option (String × String) → String
  | some (t, v) => "<" ++ t ++ ">" ++ htmlEscapeString v ++ "</" ++ t ++ ">"
  | none => ""

/-- buildXML renders the match list the way the loop in `parseXPathToXML`
does (src/ops.go:127): for each match an open tag followed by the optional
predicate child, then all open tags closed in reverse order. -/
def buildXML (ms : List XPathMatch) : String :=
  String.join (ms.map fun m => "<" ++ m.element ++ ">" ++ condXML m.cond) ++
    String.join (ms.reverse.map fun m => "</" ++ m.element ++ ">")

/-- parseXPathToXML models `parseXPathToXML` (src/ops.go:108): inputs not
starting with `/` are rejected, then the regular expression is run over
the whole input; no match at all is rejected, otherwise the nested element
string is built from the matches. -/
def parseXPathToXML (xpath : String) : Except String String :=
  if xpath.data.head? = some '/' then
    if findAllMatches xpath.data = [] then .error "invalid XPath format"
    else .ok (buildXML (findAllMatches xpath.data))
  else .error "invalid XPath format: must start with '/'"

/-- hasSlashWord decides whether the input contains an occurrence of `/`
immediately followed by a `[\w-]` character, which is exactly when the
regular expression of `parseXPathToXML` has at least one match. -/
def hasSlashWord : List Char → Bool
  | c :: c2 :: rest => (c = '/' && isWordDash c2) || hasSlashWord (c2 :: rest)
  | _ => false

/-- GetConfigReq models the `GetConfigReq` struct (src/ops.go:95): the
`source` datastore and the raw `,innerxml` filter text. -/
structure GetConfigReq where
  source : String
  filter : String
deriving DecidableEq

/-- WithFilter models `WithFilter` (src/ops.go:153) applied to a request:
when the XPath translation succeeds the subtree is wrapped in
`<filter type="subtree">…</filter>` and stored in the request; when it
fails the error is discarded and the request is returned unchanged. -/
def WithFilter (xpath : String) (c : GetConfigReq) : GetConfigReq :=
  match parseXPathToXML xpath with
  | .ok subtree => { c with filter := "<filter type=\"subtree\">" ++ subtree ++ "</filter>" }
  | .error _ => c

/-- getConfigRequest models the request-building part of
`Session.GetConfig` (src/ops.go:168): the request starts from the source
datastore with the zero-value filter, every option function is applied in
order, and the result is always handed to `Session.Call` — this function
has no error path. -/
def getConfigRequest (source : String) (opts : List (GetConfigReq → GetConfigReq)) : GetConfigReq :=
  opts.foldl (fun r o => o r) { source := source, filter := "" }

/-- CreateSubscriptionReq models the `CreateSubscriptionReq` struct
(src/ops.go:543); the two timestamps are carried as their already
formatted RFC3339 strings. -/
structure CreateSubscriptionReq where
  stream : String
  filter : String
  startTime : String
  endTime : String
deriving DecidableEq

/-- CreateSubscriptionOption models the `CreateSubscriptionOption`
interface and its four implementations (src/ops.go:551): `startTime` and
`endTime` carry the RFC3339-formatted text of the `time.Time` value. -/
inductive CreateSubscriptionOption where
  | stream (s : String)
  | startTime (t : String)
  | endTime (t : String)
  | filter (xpath : String)
deriving DecidableEq

/-- CreateSubscriptionOption.apply models the four `apply` methods
(src/ops.go:556); in particular `filter.apply` (src/ops.go:565) stores
the wrapped subtree only when the XPath translation succeeds and
otherwise discards the error, leaving the request unchanged. -/
def CreateSubscriptionOption.apply (o : CreateSubscriptionOption) (req : CreateSubscriptionReq) :
    CreateSubscriptionReq :=
  match o with
  | .stream s => { req with stream := s }
  | .startTime t => { req with startTime := t }
  | .endTime t => { req with endTime := t }
  | .filter xpath =>
    match parseXPathToXML xpath with
    | .ok subtree => { req with filter := "<filter type=\"subtree\">" ++ subtree ++ "</filter>" }
    | .error _ => req

/-- createSubscriptionRequest models the request-building part of
`Session.CreateSubscription` (src/ops.go:578): a zero-value request,
options applied in order, result always handed to `Session.Call`. -/
def createSubscriptionRequest (opts : List CreateSubscriptionOption) : CreateSubscriptionReq :=
  opts.foldl (fun r o => o.apply r) { stream := "", filter := "", startTime := "", endTime := "" }

/-- CommitReq models the `CommitReq` struct (src/ops.go:442) with its Go
zero values false, 0, "", "". -/
structure CommitReq where
  confirmed : Bool
  confirmTimeout : Int
  persist : String
  persistID : String
deriving DecidableEq

/-- CommitOption models the `CommitOption` interface and its four
implementations (src/ops.go:455): `confirmedTimeout` carries
`int64(duration.Seconds())`, the whole-second count the `apply` method
stores. -/
inductive CommitOption where
  | confirmed
  | confirmedTimeout (seconds : Int)
  | persist (id : String)
  | persistID (id : String)
deriving DecidableEq

/-- CommitOption.apply models the four `apply` methods
(src/ops.go:462–471): every confirming option also forces the confirmed
flag to true; `persistID` only writes the persist-id field. -/
def CommitOption.apply (o : CommitOption) (req : CommitReq) : CommitReq :=
  match o with
  | .confirmed => { req with confirmed := true }
  | .confirmedTimeout s => { req with confirmed := true, confirmTimeout := s }
  | .persist id => { req with confirmed := true, persist := id }
  | .persistID id => { req with persistID := id }

/-- CommitOption.isConfirmDirective singles out the three options the
source calls the Confirmed/ConfirmedTimeout/Persist directives, i.e. the
ones whose `apply` sets the confirmed flag. -/
def CommitOption.isConfirmDirective : CommitOption → Bool
  | .confirmed => true
  | .confirmedTimeout _ => true
  | .persist _ => true
  | .persistID _ => false

/-- buildCommitReq models the option-application loop of `Session.Commit`
(src/ops.go:503): a zero-value request with every option applied in
order. -/
def buildCommitReq (opts : List CommitOption) : CommitReq :=
  opts.foldl (fun r o => o.apply r) { confirmed := false, confirmTimeout := 0, persist := "", persistID := "" }

/-- commit models `Session.Commit` (src/ops.go:502) up to the network
boundary: after the options are applied, a non-empty persist-id together
with the confirmed flag is rejected with a local error before
`Session.Call` is invoked; otherwise the built request is the one handed
to `Session.Call`. -/
def commit (opts : List CommitOption) : Except String CommitReq :=
  let req := buildCommitReq opts
  if req.persistID ≠ "" ∧ req.confirmed = true then
    .error "PersistID cannot be used with Confirmed/ConfirmedTimeout or Persist options"
  else .ok req

/-- persistIDValues lists, in order, the ids of the `persistID` options of
an option list; the persist-id field of the built request is the last of
these (or empty). -/
def persistIDValues (opts : List CommitOption) : List String :=
  opts.filterMap fun o =>
    match o with
    | .persistID id => some id
    | _ => none

/-- EditConfigValue models what the `Config any` field of `EditConfigReq`
holds when it is non-nil: either the anonymous `,innerxml` wrapper that a
string or byte-slice argument is placed into verbatim, or an arbitrary
structural config payload (modelled opaquely by its encoded text). -/
inductive EditConfigValue where
  | inner (content : String)
  | structural (payload : String)
deriving DecidableEq

/-- ConfigArg models the dynamic type switch of `Session.EditConfig`
(src/ops.go:321) on its `config any` argument: a Go string, a byte slice,
a `URL`, or any other (structural) value. -/
inductive ConfigArg where
  | str (s : String)
  | bytes (b : String)
  | url (u : String)
  | structural (v : String)
deriving DecidableEq

/-- EditConfigReq models the `EditConfigReq` struct (src/ops.go:294).
`config` is `none` when the Go `Config any` field is nil (and is then
omitted from the wire); `url` is omitted from the wire when empty, per its
`omitempty` tag. -/
structure EditConfigReq where
  target : String
  defaultMergeStrategy : String
  testStrategy : String
  errorStrategy : String
  config : Option EditConfigValue
  url : String
deriving DecidableEq

/-- EditConfigOption models the `EditConfigOption` interface and its three
implementations (src/ops.go:268–276), each writing one strategy field. -/
inductive EditConfigOption where
  | defaultMergeStrategy (s : String)
  | testStrategy (s : String)
  | errorStrategy (s : String)
deriving DecidableEq

/-- EditConfigOption.apply models the three `apply` methods
(src/ops.go:274–276). -/
def EditConfigOption.apply (o : EditConfigOption) (req : EditConfigReq) : EditConfigReq :=
  match o with
  | .defaultMergeStrategy s => { req with defaultMergeStrategy := s }
  | .testStrategy s => { req with testStrategy := s }
  | .errorStrategy s => { req with errorStrategy := s }

/-- editConfigRequest models the request-building part of
`Session.EditConfig` (src/ops.go:315): the type switch populates either
the config field (string and byte-slice content verbatim as inner XML,
any other non-URL value structurally) or the url field, then the options
are applied; the result is always handed to `Session.Call`. -/
def editConfigRequest (target : String) (config : ConfigArg) (opts : List EditConfigOption) :
    EditConfigReq :=
  let base : EditConfigReq :=
    { target := target, defaultMergeStrategy := "", testStrategy := "", errorStrategy := ""
      config := none, url := "" }
  let withConfig :=
    match config with
    | .str s => { base with config := some (.inner s) }
    | .bytes b => { base with config := some (.inner b) }
    | .url u => { base with url := u }
    | .structural v => { base with config := some (.structural v) }
  opts.foldl (fun r o => o.apply r) withConfig

/-! Helper lemmas shared by the claim theorems. -/

/-- Applying edit-config options never touches the config or url fields:
the three option implementations only write the strategy fields. -/
theorem editConfig_foldl_preserves (opts : List EditConfigOption) (r : EditConfigReq) :
    (opts.foldl (fun r o => o.apply r) r).config = r.config ∧
    (opts.foldl (fun r o => o.apply r) r).url = r.url := by
  induction opts generalizing r with
  | nil => exact ⟨rfl, rfl⟩
  | cons o rest ih =>
    rw [List.foldl_cons]
    cases o <;> exact ih _

/-- editConfigRequest populates the config and url fields exactly as the
type switch dictates, whatever the option list. -/
theorem editConfigRequest_fields (target : String) (arg : ConfigArg)
    (opts : List EditConfigOption) :
    (editConfigRequest target arg opts).config =
      (match arg with
       | .str s => some (.inner s)
       | .bytes b => some (.inner b)
       | .url _ => none
       | .structural v => some (.structural v)) ∧
    (editConfigRequest target arg opts).url =
      (match arg with
       | .url u => u
       | _ => "") := by
  cases arg with
  | str s => exact editConfig_foldl_preserves opts _
  | bytes b => exact editConfig_foldl_preserves opts _
  | url u => exact editConfig_foldl_preserves opts _
  | structural v => exact editConfig_foldl_preserves opts _

/-- At a position where `/` is followed by a `[\w-]` character the scanner
always produces a match, whether or not a predicate follows. -/
theorem findAllAux_cons_of_slashWord (fuel : Nat) (c c2 : Char) (rest : List Char)
    (h : (c = '/' && isWordDash c2) = true) :
    findAllAux (fuel + 1) (c :: c2 :: rest) ≠ [] := by
  rw [findAllAux, if_pos h]
  cases scanPredicate (takeWord (c2 :: rest)).2 with
  | some p =>
    rcases p with ⟨t, v, rest2⟩
    exact List.cons_ne_nil _ _
  | none => exact List.cons_ne_nil _ _

/-- The scanner finds no match exactly when nowhere in the input a `/` is
immediately followed by a `[\w-]` character, for any sufficient fuel. -/
theorem findAllAux_eq_nil_iff (fuel : Nat) :
    ∀ cs : List Char, cs.length ≤ fuel →
      (findAllAux fuel cs = [] ↔ hasSlashWord cs = false) := by
  induction fuel with
  | zero =>
    intro cs hle
    have hnil : cs = [] := List.length_eq_zero.mp (Nat.le_zero.mp hle)
    subst hnil
    exact ⟨fun _ => rfl, fun _ => rfl⟩
  | succ fuel ih =>
    intro cs hle
    rcases cs with _ | ⟨c, _ | ⟨c2, rest⟩⟩
    · exact ⟨fun _ => rfl, fun _ => rfl⟩
    · exact ⟨fun _ => rfl, fun _ => rfl⟩
    · by_cases h : (c = '/' && isWordDash c2) = true
      · have hsw : hasSlashWord (c :: c2 :: rest) = true := by
          rw [hasSlashWord, h, Bool.true_or]
        rw [hsw]
        exact ⟨fun hcontra => absurd hcontra (findAllAux_cons_of_slashWord fuel c c2 rest h),
          fun htrue => absurd htrue (by simp)⟩
      · have hstep : findAllAux (fuel + 1) (c :: c2 :: rest) = findAllAux fuel (c2 :: rest) := by
          rw [findAllAux, if_neg h]
        have hsw : hasSlashWord (c :: c2 :: rest) = hasSlashWord (c2 :: rest) := by
          rw [hasSlashWord, Bool.eq_false_iff.mpr h, Bool.false_or]
        rw [hstep, hsw]
        exact ih (c2 :: rest) (by simp only [List.length_cons] at hle ⊢; omega)

/-- Folding commit options onto a request leaves the confirmed flag true
exactly when it started true or some applied option is a confirming
directive: no option ever clears the flag. -/
theorem commit_foldl_confirmed (opts : List CommitOption) (r : CommitReq) :
    (opts.foldl (fun r o => o.apply r) r).confirmed =
      (r.confirmed || opts.any fun o => o.isConfirmDirective) := by
  induction opts generalizing r with
  | nil => simp
  | cons o rest ih =>
    rw [List.foldl_cons, List.any_cons, ih]
    cases o <;> simp [CommitOption.apply, CommitOption.isConfirmDirective, Bool.or_assoc]

/-- Folding commit options onto a request leaves, as persist-id, the last
id written by a `persistID` option, or the starting value when there is
none. -/
theorem commit_foldl_persistID (opts : List CommitOption) (r : CommitReq) :
    (opts.foldl (fun r o => o.apply r) r).persistID =
      (persistIDValues opts).getLastD r.persistID := by
  induction opts generalizing r with
  | nil => simp [persistIDValues]
  | cons o rest ih =>
    rw [List.foldl_cons, ih]
    cases o with
    | confirmed => rfl
    | confirmedTimeout s => rfl
    | persist id => rfl
    | persistID id =>
      show (persistIDValues rest).getLastD id = (id :: persistIDValues rest).getLastD r.persistID
      rw [List.getLastD_cons]

/-- A string is a persist-id value of an option list exactly when the
corresponding `persistID` option is in the list. -/
theorem mem_persistIDValues (opts : List CommitOption) (s : String) :
    s ∈ persistIDValues opts ↔ CommitOption.persistID s ∈ opts := by
  rw [persistIDValues, List.mem_filterMap]
  constructor
  · rintro ⟨o, ho, he⟩
    cases o <;> simp_all
  · intro h
    exact ⟨_, h, rfl⟩

/-- commit returns the local validation error exactly when the built
request carries a non-empty persist-id (the last `persistID` value) and
the confirmed flag (some confirming directive occurs in the list). -/
theorem commit_isOk_false_iff (opts : List CommitOption) :
    (commit opts).isOk = false ↔
      ((persistIDValues opts).getLastD "" ≠ "" ∧
        (opts.any fun o => o.isConfirmDirective) = true) := by
  have hp : (buildCommitReq opts).persistID = (persistIDValues opts).getLastD "" :=
    commit_foldl_persistID opts _
  have hc : (buildCommitReq opts).confirmed = (opts.any fun o => o.isConfirmDirective) := by
    simpa using commit_foldl_confirmed opts
      { confirmed := false, confirmTimeout := 0, persist := "", persistID := "" }
  by_cases h : (buildCommitReq opts).persistID ≠ "" ∧ (buildCommitReq opts).confirmed = true
  · have heq : commit opts =
        .error "PersistID cannot be used with Confirmed/ConfirmedTimeout or Persist options" := by
      simp only [commit]
      rw [if_pos h]
    rw [heq]
    exact ⟨fun _ => ⟨hp ▸ h.1, hc ▸ h.2⟩, fun _ => rfl⟩
  · have heq : commit opts = .ok (buildCommitReq opts) := by
      simp only [commit]
      rw [if_neg h]
    rw [heq]
    constructor
    · intro h'
      simp [Except.isOk, Except.toBool] at h'
    · intro hrhs
      exact absurd ⟨by rw [hp]; exact hrhs.1, by rw [hc]; exact hrhs.2⟩ h

/-! Claim theorems. -/

/-- C3: the presence boolean encodes true to an element present with empty
content and false to the element being omitted entirely; decoding yields
true iff the element is present, whatever its content, so decoding an
encoding returns the original boolean. -/
theorem extantBool_presence_roundtrip (b : Bool) (start : String) :
    unmarshalExtantBool (marshalExtantBool b start) = b ∧
    marshalExtantBool true start = some ⟨start, ""⟩ ∧
    marshalExtantBool false start = none ∧
    (∀ e : XmlElem, unmarshalExtantBool (some e) = true) := by
  refine ⟨?_, rfl, rfl, fun e => rfl⟩
  cases b <;> rfl

/-- C4: encoding a datastore selector with an empty identifier fails with
an explicit error before anything is written; a non-empty identifier is
XML-escaped and becomes the tag name of an empty element placed inside the
selector start element. -/
theorem datastore_empty_rejected_nonempty_tag (s start : String) :
    datastoreMarshalXML "" start = .error "datastores cannot be empty" ∧
    (s ≠ "" →
      datastoreMarshalXML s start =
        .ok ("<" ++ start ++ ">" ++ "<" ++ escapeXML s ++ "/>" ++ "</" ++ start ++ ">")) := by
  refine ⟨rfl, fun h => ?_⟩
  simp [datastoreMarshalXML, h]

/-- Witness for C4 at the identifier "running" inside a `source` selector. -/
theorem datastore_empty_rejected_nonempty_tag_witness :
    datastoreMarshalXML "" "source" = .error "datastores cannot be empty" ∧
    datastoreMarshalXML "running" "source" = .ok "<source><running/></source>" :=
  ⟨(datastore_empty_rejected_nonempty_tag "running" "source").1,
    (datastore_empty_rejected_nonempty_tag "running" "source").2 (by decide)⟩

/-- C8: datastore encoding fails exactly on the empty identifier; every
non-empty identifier succeeds, XML-special characters included — they are
escaped into the tag name rather than rejected, as the concrete `<&`
identifier shows. -/
theorem datastore_error_iff_empty (s start : String) :
    ((datastoreMarshalXML s start).isOk = false ↔ s = "") ∧
    datastoreMarshalXML "<&" "target" = .ok "<target><&lt;&amp;/></target>" := by
  refine ⟨⟨fun h => ?_, fun h => by subst h; rfl⟩, rfl⟩
  by_contra hne
  have hok : datastoreMarshalXML s start =
      .ok ("<" ++ start ++ ">" ++ "<" ++ escapeXML s ++ "/>" ++ "</" ++ start ++ ">") := by
    simp [datastoreMarshalXML, hne]
  rw [hok] at h
  simp [Except.isOk, Except.toBool] at h

/-- C5: every input that does not begin with the path separator `/` is
rejected by the XPath translator with an explicit error and produces no
filter document. -/
theorem parseXPath_rejects_non_slash (s : String) (h : s.data.head? ≠ some '/') :
    parseXPathToXML s = .error "invalid XPath format: must start with '/'" := by
  simp [parseXPathToXML, h]

/-- Witness for C5 at the concrete separator-free input "library". -/
theorem parseXPath_rejects_non_slash_witness :
    parseXPathToXML "library" = .error "invalid XPath format: must start with '/'" :=
  parseXPath_rejects_non_slash "library" (by decide)

/-- C6: translating `/library/book[title="Go Programming"]` succeeds with
the nested document whose innermost `book` element holds a `title` child
carrying the (identically escaped) literal, wrapped inside `library`, tags
closed in reverse order, and `WithFilter` wraps the result in a subtree
filter element. -/
theorem parseXPath_library_book_title :
    parseXPathToXML "/library/book[title=\"Go Programming\"]" =
      .ok "<library><book><title>Go Programming</title></book></library>" ∧
    htmlEscapeString "Go Programming" = "Go Programming" ∧
    WithFilter "/library/book[title=\"Go Programming\"]" { source := "running", filter := "" } =
      { source := "running",
        filter := "<filter type=\"subtree\"><library><book><title>Go Programming</title></book></library></filter>" } := by
  refine ⟨?_, ?_, ?_⟩ <;> rfl

/-- C1 (defect kept by the code): when filter construction fails — here on
the separator-free path "library" — `WithFilter` and the subscription
filter option swallow the error, and the get-config and
create-subscription requests proceed unfiltered instead of failing with a
local validation error. -/
theorem filter_failure_silently_proceeds :
    (parseXPathToXML "library").isOk = false ∧
    getConfigRequest "running" [WithFilter "library"] = { source := "running", filter := "" } ∧
    createSubscriptionRequest [CreateSubscriptionOption.filter "library"] =
      { stream := "", filter := "", startTime := "", endTime := "" } :=
  ⟨rfl, rfl, rfl⟩

/-- Counterexample to C7 as stated: a `URL("")` argument yields a request
in which neither the config nor the url wire field is populated — config
is nil and url is the empty string, which its `omitempty` tag drops from
the wire — so "exactly one is populated" fails. -/
theorem editConfig_url_empty_neither_populated :
    (editConfigRequest "candidate" (ConfigArg.url "") []).config = none ∧
    (editConfigRequest "candidate" (ConfigArg.url "") []).url = "" :=
  ⟨rfl, rfl⟩

/-- C7 amended: never are both the config and url wire fields populated; a
URL-typed argument populates url with the locator text (leaving config
empty, url being dropped from the wire when that text is empty); a string,
byte-slice, or structural argument populates config — string and byte
content verbatim as inner content — and leaves url empty. -/
theorem editConfig_at_most_one_populated (target : String) (arg : ConfigArg)
    (opts : List EditConfigOption) :
    (¬ ((editConfigRequest target arg opts).config.isSome = true ∧
        (editConfigRequest target arg opts).url ≠ "")) ∧
    (∀ s, arg = ConfigArg.str s →
      (editConfigRequest target arg opts).config = some (EditConfigValue.inner s) ∧
      (editConfigRequest target arg opts).url = "") ∧
    (∀ b, arg = ConfigArg.bytes b →
      (editConfigRequest target arg opts).config = some (EditConfigValue.inner b) ∧
      (editConfigRequest target arg opts).url = "") ∧
    (∀ v, arg = ConfigArg.structural v →
      (editConfigRequest target arg opts).config = some (EditConfigValue.structural v) ∧
      (editConfigRequest target arg opts).url = "") ∧
    (∀ u, arg = ConfigArg.url u →
      (editConfigRequest target arg opts).config = none ∧
      (editConfigRequest target arg opts).url = u) := by
  obtain ⟨hc, hu⟩ := editConfigRequest_fields target arg opts
  refine ⟨?_, ?_, ?_, ?_, ?_⟩
  · rintro ⟨h1, h2⟩
    cases arg <;> simp_all
  · rintro s rfl
    exact ⟨hc, hu⟩
  · rintro b rfl
    exact ⟨hc, hu⟩
  · rintro v rfl
    exact ⟨hc, hu⟩
  · rintro u rfl
    exact ⟨hc, hu⟩

/-- Witness for the amended C7 at a raw string config argument. -/
theorem editConfig_at_most_one_populated_witness :
    (editConfigRequest "candidate" (ConfigArg.str "<x/>") []).config =
      some (EditConfigValue.inner "<x/>") ∧
    (editConfigRequest "candidate" (ConfigArg.str "<x/>") []).url = "" :=
  (editConfig_at_most_one_populated "candidate" (ConfigArg.str "<x/>") []).2.1 "<x/>" rfl

/-- C2: whenever the option list yields a commit request whose persist-id
is non-empty and that contains a confirming directive (WithConfirmed,
WithConfirmedTimeout or WithPersist), commit returns the local validation
error — the `.error` branch taken before `Session.Call` is ever invoked. -/
theorem commit_persistID_confirmed_local_error (opts : List CommitOption)
    (h1 : (buildCommitReq opts).persistID ≠ "")
    (h2 : ∃ o ∈ opts, o.isConfirmDirective = true) :
    commit opts =
      .error "PersistID cannot be used with Confirmed/ConfirmedTimeout or Persist options" := by
  have hc : (buildCommitReq opts).confirmed = true := by
    have := commit_foldl_confirmed opts
      { confirmed := false, confirmTimeout := 0, persist := "", persistID := "" }
    rw [buildCommitReq, this, Bool.false_or]
    exact List.any_eq_true.mpr h2
  simp only [commit]
  rw [if_pos ⟨h1, hc⟩]

/-- Witness for C2: confirmed commit combined with a non-empty
persist-id. -/
theorem commit_persistID_confirmed_local_error_witness :
    commit [CommitOption.confirmed, CommitOption.persistID "abc"] =
      .error "PersistID cannot be used with Confirmed/ConfirmedTimeout or Persist options" :=
  commit_persistID_confirmed_local_error
    [CommitOption.confirmed, CommitOption.persistID "abc"]
    (by decide) ⟨CommitOption.confirmed, by decide⟩

/-- Counterexample to C10 as stated: two orderings of the same commit
options (two `WithPersistID` options with different ids plus a confirmed
directive) give different validation outcomes, because the last persist-id
written wins — so the outcome is not independent of option order. -/
theorem commit_order_counterexample :
    List.Perm
      [CommitOption.persistID "", CommitOption.persistID "x", CommitOption.confirmed]
      [CommitOption.persistID "x", CommitOption.persistID "", CommitOption.confirmed] ∧
    (commit [CommitOption.persistID "", CommitOption.persistID "x", CommitOption.confirmed]).isOk
      = false ∧
    (commit [CommitOption.persistID "x", CommitOption.persistID "", CommitOption.confirmed]).isOk
      = true :=
  ⟨List.Perm.swap (CommitOption.persistID "x") (CommitOption.persistID "")
      [CommitOption.confirmed], rfl, rfl⟩

/-- C10 amended: applying WithPersist always sets the confirmed flag, and
the outcome of commit's persist-id/confirmed mutual-exclusion validation
is independent of the order of the caller's options provided the list does
not carry two WithPersistID options with different ids (every option
writes fixed request fields, and validation runs only after all options
are applied). -/
theorem commit_order_independence_amended (opts opts' : List CommitOption)
    (hperm : List.Perm opts opts')
    (huniq : ∀ s t : String, CommitOption.persistID s ∈ opts →
      CommitOption.persistID t ∈ opts → s = t) :
    (∀ (r : CommitReq) (id : String), ((CommitOption.persist id).apply r).confirmed = true) ∧
    (commit opts).isOk = (commit opts').isOk := by
  refine ⟨fun r id => rfl, ?_⟩
  have hpids : List.Perm (persistIDValues opts) (persistIDValues opts') :=
    hperm.filterMap _
  have hany : (opts.any fun o => o.isConfirmDirective)
      = (opts'.any fun o => o.isConfirmDirective) := by
    refine Bool.eq_iff_iff.mpr ?_
    rw [List.any_eq_true, List.any_eq_true]
    exact ⟨fun ⟨o, ho, hd⟩ => ⟨o, hperm.mem_iff.mp ho, hd⟩,
      fun ⟨o, ho, hd⟩ => ⟨o, hperm.mem_iff.mpr ho, hd⟩⟩
  have hlast : (persistIDValues opts).getLastD "" = (persistIDValues opts').getLastD "" := by
    by_cases hne : persistIDValues opts = []
    · have hL' : persistIDValues opts' = [] := by
        have := hpids.length_eq
        rw [hne] at this
        exact List.length_eq_zero.mp this.symm
      rw [hne, hL']
    · have hne' : persistIDValues opts' ≠ [] := by
        intro hc
        have := hpids.length_eq
        rw [hc] at this
        exact hne (List.length_eq_zero.mp this)
      have hm : (persistIDValues opts).getLastD "" ∈ persistIDValues opts := by
        rw [List.getLastD_eq_getLast?, List.getLast?_eq_getLast _ hne, Option.getD_some]
        exact List.getLast_mem hne
      have hm' : (persistIDValues opts').getLastD "" ∈ persistIDValues opts := by
        rw [List.getLastD_eq_getLast?, List.getLast?_eq_getLast _ hne', Option.getD_some]
        exact hpids.mem_iff.mpr (List.getLast_mem hne')
      exact huniq _ _ ((mem_persistIDValues opts _).mp hm)
        ((mem_persistIDValues opts _).mp hm')
  refine Bool.eq_iff_iff.mpr ?_
  have h1 := commit_isOk_false_iff opts
  have h2 := commit_isOk_false_iff opts'
  rw [hany, hlast] at h1
  cases hb : (commit opts).isOk <;> cases hb' : (commit opts').isOk
  · simp
  · exact absurd (h1.mp hb) fun hcond => by
      rw [hb'] at h2
      exact absurd (h2.mpr hcond) (by simp)
  · exact absurd (h2.mp hb') fun hcond => by
      rw [hb] at h1
      exact absurd (h1.mpr hcond) (by simp)
  · simp

/-- Witness for the amended C10: swapping a persist-id option with a
confirmed directive does not change the validation outcome. -/
theorem commit_order_independence_amended_witness :
    (commit [CommitOption.persistID "x", CommitOption.confirmed]).isOk =
      (commit [CommitOption.confirmed, CommitOption.persistID "x"]).isOk :=
  (commit_order_independence_amended
    [CommitOption.persistID "x", CommitOption.confirmed]
    [CommitOption.confirmed, CommitOption.persistID "x"]
    (List.Perm.swap CommitOption.confirmed (CommitOption.persistID "x") [])
    (by intro s t hs ht; simp at hs ht; rw [hs, ht])).2

/-- C9: the XPath translator errs exactly when the input does not start
with `/` or contains no `/` immediately followed by a `[\w-]` element-name
character; any other input succeeds, and text matching neither a segment
nor a well-formed single equality predicate is silently dropped from the
output rather than reported — as the malformed-predicate, trailing-garbage
input `/a[b=c]/d!x[` shows. -/
theorem parseXPath_error_iff (s : String) :
    ((parseXPathToXML s).isOk = false ↔
      (s.data.head? ≠ some '/' ∨ hasSlashWord s.data = false)) ∧
    parseXPathToXML "/a[b=c]/d!x[" = .ok "<a><d></d></a>" := by
  refine ⟨?_, rfl⟩
  by_cases hh : s.data.head? = some '/'
  · have hiff := findAllAux_eq_nil_iff s.data.length s.data (Nat.le_refl _)
    by_cases hm : findAllMatches s.data = []
    · have herr : parseXPathToXML s = .error "invalid XPath format" := by
        rw [parseXPathToXML, if_pos hh, if_pos hm]
      rw [herr]
      exact ⟨fun _ => Or.inr (hiff.mp hm), fun _ => rfl⟩
    · have hok : parseXPathToXML s = .ok (buildXML (findAllMatches s.data)) := by
        rw [parseXPathToXML, if_pos hh, if_neg hm]
      rw [hok]
      constructor
      · intro h'
        simp [Except.isOk, Except.toBool] at h'
      · rintro (h' | h')
        · exact absurd hh h'
        · exact absurd (hiff.mpr h') hm
  · have herr : parseXPathToXML s = .error "invalid XPath format: must start with '/'" := by
      rw [parseXPathToXML, if_neg hh]
    rw [herr]
    exact ⟨fun _ => Or.inl hh, fun _ => rfl⟩

end Netconf
